import Mathlib

/-!
# Verification of the dumbstone move-filtering wrapper

A shallow embedding of `dumbstone.py`, the wrapper that dumbs down a
Leela Zero engine: the diagnostic-line parser (`_read_variations` and the
`_VARIATION` regular expression), the move selector (`_most_suitable`),
the move-generation choreography (`genmove`) and the passthrough relay
(`dump_stdout_until_ready`), together with proofs of the specified
properties.

Modelling conventions:
* Python floats are modelled as rationals (`ℚ`); the win percentages the
  program compares are short decimal strings, and every claim is about
  the order structure of the comparisons, not about rounding.
* The blocking `Queue.get` calls are modelled by passing the stream of
  queued lines as a `List String`; running out of lines models a wait
  that blocks forever (`blocked` outcomes / `none`).
* Logging calls (`self._log`, writes to stderr) are omitted: they do not
  feed back into control flow, except the one format call in `genmove`
  whose failure is modelled by `formatMoveLog`.
-/

namespace Dumbstone

/-! ## Python primitives used by the source -/

/-- Value of a digit character. -/
def digitVal (c : Char) : Nat := c.toNat - 48

/-- Python's `str.strip()`: remove whitespace from both ends.  (Defined on
the character list so that it evaluates by kernel reduction; Lean's
`String.trim` is byte-position based.) -/
def pyStrip (s : String) : String :=
  ⟨((s.data.dropWhile Char.isWhitespace).reverse.dropWhile
      Char.isWhitespace).reverse⟩

/-- Parse the continuation of a Python decimal integer literal: after a
leading digit, the grammar is `(["_"] digit)*` — every underscore must sit
between two digits.  `acc` is the value of the digits already read. -/
def pyDigitsGo (acc : Nat) : List Char → Option Nat
  | [] => some acc
  | '_' :: c :: rest =>
    if c.isDigit then pyDigitsGo (10 * acc + digitVal c) rest else none
  | '_' :: [] => none
  | c :: rest =>
    if c.isDigit then pyDigitsGo (10 * acc + digitVal c) rest else none

/-- Parse a nonempty run of decimal digits (with Python's underscore rule). -/
def pyDigits : List Char → Option Nat
  | c :: rest => if c.isDigit then pyDigitsGo (digitVal c) rest else none
  | [] => none

/-- Model of Python's `int(s)` on a base-10 string: strip surrounding
whitespace, optional sign, then a nonempty digit run (underscores allowed
between digits).  Returns `none` where `int` raises `ValueError`. -/
def pyInt (s : String) : Option Int :=
  match (pyStrip s).data with
  | '+' :: rest => (pyDigits rest).map Int.ofNat
  | '-' :: rest => (pyDigits rest).map fun n => -(n : Int)
  | rest => (pyDigits rest).map Int.ofNat

/-- Value of a digit list read as the integer part of a decimal. -/
def digitsToNat (cs : List Char) : Nat :=
  cs.foldl (fun a c => 10 * a + digitVal c) 0

/-- Model of Python's `float(s)` on the decimal forms the program meets:
strip whitespace, optional sign, digits with an optional fractional part
(at least one digit overall).  Python's `float` also accepts exponents,
`inf`/`nan` and underscores; no claim depends on those forms.  Returns
`none` where `float` raises `ValueError`. -/
def pyFloat (s : String) : Option ℚ :=
  let cs := (pyStrip s).data
  let core : List Char → Option ℚ := fun ds =>
    let ip := ds.takeWhile Char.isDigit
    match ds.dropWhile Char.isDigit with
    | [] => if ip = [] then none else some (digitsToNat ip : ℚ)
    | '.' :: fp =>
      if fp.all Char.isDigit ∧ (ip ≠ [] ∨ fp ≠ []) then
        some ((digitsToNat ip : ℚ) + (digitsToNat fp : ℚ) / (10 : ℚ) ^ fp.length)
      else none
    | _ => none
  match cs with
  | '+' :: rest => core rest
  | '-' :: rest => (core rest).map Neg.neg
  | rest => core rest

/-! ## The `_VARIATION` regular expression

`_VARIATION = re.compile(r" *([^ ]*) -> *([^ ]*) \(V: ([^%]*)%\).*$")`,
used with `re.match` (anchored at the start of the line).  We model the
backtracking search faithfully: each greedy quantifier prefers the longest
run, and earlier quantifiers' preferences dominate later ones. -/

/-- All splits `(taken, rest)` of `cs` where `taken` is a run of characters
satisfying `p`, longest `taken` first — the preference order a greedy
quantifier explores under backtracking. -/
def splitsDesc (p : Char → Bool) (cs : List Char) : List (List Char × List Char) :=
  let t := cs.takeWhile p
  let r := cs.dropWhile p
  (List.range (t.length + 1)).reverse.map fun n => (t.take n, t.drop n ++ r)

/-- Match a literal character sequence, returning the remainder. -/
def stripLit : List Char → List Char → Option (List Char)
  | [], cs => some cs
  | _ :: _, [] => none
  | l :: ls, c :: cs => if c = l then stripLit ls cs else none

/-- The trailing `.*$` of the pattern: `.` does not cross a newline and `$`
matches at the end of the string or just before a final newline, so the
remainder must be newline-free except for an optional final newline. -/
def dotStarEnd (cs : List Char) : Bool :=
  match cs.dropWhile (fun c => !(c = '\n')) with
  | [] => true
  | ['\n'] => true
  | _ => false

/-- Backtracking match of the `_VARIATION` pattern against a line (as a
character list), returning the three captured groups: move token, visit
field, win-percent field. -/
def matchVariationCs (cs : List Char) : Option (List Char × List Char × List Char) :=
  (splitsDesc (fun c => c = ' ') cs).findSome? fun s0 =>
    (splitsDesc (fun c => !(c = ' ')) s0.2).findSome? fun s1 =>
      match stripLit " ->".data s1.2 with
      | none => none
      | some cs2 =>
        (splitsDesc (fun c => c = ' ') cs2).findSome? fun s2 =>
          (splitsDesc (fun c => !(c = ' ')) s2.2).findSome? fun s3 =>
            match stripLit " (V: ".data s3.2 with
            | none => none
            | some cs4 =>
              (splitsDesc (fun c => !(c = '%')) cs4).findSome? fun s4 =>
                match stripLit "%)".data s4.2 with
                | none => none
                | some cs5 =>
                  if dotStarEnd cs5 then some (s1.1, s3.1, s4.1) else none

/-- `LzWrapper._VARIATION.match(line)`, with the three captured groups. -/
def matchVariation (s : String) : Option (String × String × String) :=
  (matchVariationCs s.data).map fun g => (⟨g.1⟩, ⟨g.2.1⟩, ⟨g.2.2⟩)

/-! ## `_read_variations` -/

/-- The sentinel prefix check `line[:8] == 'NN eval='`. -/
def sentinelChars : List Char := "NN eval=".data

/-- Outcome of `_read_variations`: the accepted `(move, winPercent)` pairs
and the unconsumed diagnostic lines, or one of the failure modes —
`blocked` (queue ran dry: the real code would block forever), `valueError`
(a `int()` conversion raised), `assertFail` (the `assert variations`
precondition fired at the sentinel). -/
inductive ReadOutcome where
  | ok (vars : List (String × String)) (rest : List String)
  | blocked
  | valueError
  | assertFail
  deriving DecidableEq

/-- The loop of `LzWrapper._read_variations`.  `variations` accumulates
accepted candidates in reverse; the dropped-candidates list only feeds a
log message and is omitted.  A line whose first eight characters are
`NN eval=` ends the block; otherwise the line is matched against
`_VARIATION`, non-matching lines are skipped, and a matching record is
accepted iff `int(visits) >= min_visits or move == 'pass'` (the `int`
conversion runs first and raises on a malformed visit field). -/
def readVariationsGo (minVisits : Int) (variations : List (String × String)) :
    List String → ReadOutcome
  | [] => .blocked
  | line :: rest =>
    if line.data.take 8 = sentinelChars then
      if variations = [] then .assertFail else .ok variations.reverse rest
    else
      match matchVariation line with
      | none => readVariationsGo minVisits variations rest
      | some (move, visits, win) =>
        match pyInt visits with
        | none => .valueError
        | some v =>
          if v ≥ minVisits ∨ move = "pass" then
            readVariationsGo minVisits ((move, win) :: variations) rest
          else
            readVariationsGo minVisits variations rest

/-- `LzWrapper._read_variations`, consuming lines from the diagnostic
queue. -/
def readVariations (minVisits : Int) (lines : List String) : ReadOutcome :=
  readVariationsGo minVisits [] lines

/-! ## `_most_suitable` -/

/-- The loop of `LzWrapper._most_suitable`.  State: `tp` is `top_percent`
(set from the first candidate and then fixed), `ch` is `chosen`, `cd` is
`chosen_dev`.  A candidate whose win percent drops more than `md` below
the top is skipped (`continue`); otherwise the candidate replaces the
current choice exactly when its deviation from `prob` is strictly smaller
in magnitude; a considered `"pass"` ends the loop when `pt` is set. -/
def mostSuitableGo (prob md : ℚ) (pt : Bool) (tp : Option ℚ)
    (ch : Option String) (cd : Option ℚ) :
    List (String × ℚ) → Option String × Option ℚ
  | [] => (ch, cd)
  | (varMove, percent) :: rest =>
    let top := tp.getD percent
    if top - percent > md then
      mostSuitableGo prob md pt (some top) ch cd rest
    else
      let deviation := percent - prob
      let better : Bool :=
        match cd with
        | none => true
        | some d => decide (|deviation| < |d|)
      let ch' := if better then some varMove else ch
      let cd' := if better then some deviation else cd
      if varMove = "pass" ∧ pt = true then (ch', cd')
      else mostSuitableGo prob md pt (some top) ch' cd' rest

/-- `LzWrapper._most_suitable` on candidates whose win percents are already
converted (the source converts each `percent_s` with `float` as the loop
reaches it; the claims are about well-formed percent fields, where the two
are the same). -/
def mostSuitable (variations : List (String × ℚ)) (prob md : ℚ) (pt : Bool) :
    Option String × Option ℚ :=
  mostSuitableGo prob md pt none none none variations

/-- The candidates surviving the max-drop filter: those whose win percent
is not more than `md` below the first candidate's. -/
def survivors (md : ℚ) : List (String × ℚ) → List (String × ℚ)
  | [] => []
  | (m, p) :: rest => ((m, p) :: rest).filter fun c => decide (p - c.2 ≤ md)

/-- Win percent of the first candidate (`top_percent`); `0` for an empty
list, which never arises where it is used. -/
def headPercent : List (String × ℚ) → ℚ
  | [] => 0
  | c :: _ => c.2

/-- One step of the specified selection: keep the earlier candidate unless
the new one's deviation from the target is strictly smaller. -/
def chooseStep (prob : ℚ) (best : Option (String × ℚ)) (c : String × ℚ) :
    Option (String × ℚ) :=
  match best with
  | none => some c
  | some b => if |c.2 - prob| < |b.2 - prob| then some c else some b

/-! ## `genmove` -/

/-- The log call `"*** Going to play {} (dev: {:.2f}%)***".format(chosen, dev)`
(dumbstone.py line 265).  `"{:.2f}"` raises `TypeError` when `dev` is
`None`; the produced text feeds only the log and is not modelled. -/
def formatMoveLog (dev : Option ℚ) : Except Unit Unit :=
  match dev with
  | none => .error ()
  | some _ => .ok ()

/-- `LzWrapper._wait_for_move`: pop lines from the primary queue, echoing
every line that does not start with `=` to stdout; the first `=` line
yields the move token `out[2:].strip()`.  Returns
`(echoed lines, move, remaining queue)`, or `none` when the queue runs dry
(the real call blocks). -/
def waitForMove : List String → Option (List String × String × List String)
  | [] => none
  | out :: rest =>
    if out.data.take 1 = ['='] then some ([], pyStrip ⟨out.data.drop 2⟩, rest)
    else
      match waitForMove rest with
      | none => none
      | some (w, m, r) => some (out :: w, m, r)

/-- The wait-for-variations loop in `genmove` (lines 252–258): discard
diagnostic lines until the first `NN eval=` sentinel, inclusive. -/
def skipToSentinel : List String → Option (List String)
  | [] => none
  | line :: rest =>
    if line.data.take 8 = sentinelChars then some rest
    else skipToSentinel rest

/-- `LzWrapper._consume_stdout_until_ready`: discard primary-queue lines
until one starting with `=`, inclusive. -/
def consumeStdoutUntilReady : List String → Option (List String)
  | [] => none
  | out :: rest =>
    if out.data.take 1 = ['='] then some rest
    else consumeStdoutUntilReady rest

/-- `LzWrapper.dump_stdout_until_ready`: relay primary-queue lines to
stdout until (and including) the first line whose first character is `=`
or `?`.  Returns the relayed lines in order and the remaining queue, or
`none` when the queue runs dry (the real call blocks). -/
def dumpStdoutUntilReady : List String → Option (List String × List String)
  | [] => none
  | out :: rest =>
    if out.data.take 1 = ['='] ∨ out.data.take 1 = ['?'] then some ([out], rest)
    else
      match dumpStdoutUntilReady rest with
      | none => none
      | some (w, r) => some (out :: w, r)

/-- Outcome of one `genmove` cycle: the lines written to the controller's
stdout and the commands sent to the subordinate engine, or a failure —
`blocked` (a queue wait would never return), `valueError` (an `int()` or
`float()` conversion raised), `assertFail` (from `_read_variations`),
`typeError` (formatting a `None` deviation). -/
inductive GenOutcome where
  | ok (stdout : List String) (lzCmds : List String)
  | blocked
  | valueError
  | assertFail
  | typeError
  deriving DecidableEq

/-- `LzWrapper.genmove`, driven by the queued primary-output lines `lzOut`
and diagnostic lines `lzErr`.  The `float(percent_s)` conversions, run by
the source inside the selection loop, are modelled up front; they agree
whenever every percent field parses, and no claim concerns the remaining
corner (a malformed percent field after an early pass-termination). -/
def genmove (color : String) (prob : ℚ) (minVisits : Int) (md : ℚ) (pt : Bool)
    (lzOut lzErr : List String) : GenOutcome :=
  let cmd := "genmove " ++ color ++ "\r\n"
  match waitForMove lzOut with
  | none => .blocked
  | some (chatter, move, lzOutRest) =>
    if move = "resign" then .ok (chatter ++ ["= resign\r\n"]) [cmd]
    else if move = "pass" then .ok (chatter ++ ["= pass\r\n"]) [cmd]
    else
      match skipToSentinel lzErr with
      | none => .blocked
      | some lzErr1 =>
        match readVariations minVisits lzErr1 with
        | .blocked => .blocked
        | .valueError => .valueError
        | .assertFail => .assertFail
        | .ok vars _ =>
          match vars.mapM (fun c => (pyFloat c.2).map fun q => (c.1, q)) with
          | none => .valueError
          | some varsQ =>
            let r := mostSuitable varsQ prob md pt
            match formatMoveLog r.2 with
            | .error _ => .typeError
            | .ok _ =>
              let moveStr := match r.1 with | some m => m | none => "None"
              match consumeStdoutUntilReady lzOutRest with
              | none => .blocked
              | some lzOutRest2 =>
                match consumeStdoutUntilReady lzOutRest2 with
                | none => .blocked
                | some _ =>
                  .ok (chatter ++ ["= " ++ moveStr ++ "\r\n"])
                    [cmd, "undo\r\n",
                     "play " ++ color ++ " " ++ moveStr ++ "\r\n"]

/-! ## Helper lemmas about the selector loop -/

/-- Once `top_percent` is fixed, the loop either leaves the running choice
unchanged or ends with some candidate of the remaining list that survives
the max-drop filter, with its signed deviation. -/
theorem go_result (prob md : ℚ) (pt : Bool) (t : ℚ) :
    ∀ (l : List (String × ℚ)) (ch : Option String) (cd : Option ℚ),
      mostSuitableGo prob md pt (some t) ch cd l = (ch, cd) ∨
      ∃ m p, (m, p) ∈ l ∧ t - p ≤ md ∧
        mostSuitableGo prob md pt (some t) ch cd l = (some m, some (p - prob)) := by
  intro l
  induction l with
  | nil => intro ch cd; left; rfl
  | cons c rest ih =>
    intro ch cd
    obtain ⟨mv, p⟩ := c
    by_cases hdrop : t - p > md
    · rcases ih ch cd with h | ⟨m', p', hmem, hle, h⟩
      · left; simpa [mostSuitableGo, hdrop] using h
      · right; exact ⟨m', p', List.mem_cons_of_mem _ hmem, hle,
          by simpa [mostSuitableGo, hdrop] using h⟩
    · have hle : t - p ≤ md := le_of_not_lt hdrop
      by_cases hbrk : mv = "pass" ∧ pt = true
      · cases cd with
        | none =>
          right
          exact ⟨mv, p, List.mem_cons_self _ _, hle,
            by simp [mostSuitableGo, hdrop, hbrk]⟩
        | some d =>
          by_cases hbet : |p - prob| < |d|
          · right
            exact ⟨mv, p, List.mem_cons_self _ _, hle,
              by simp [mostSuitableGo, hdrop, hbrk, hbet]⟩
          · left; simp [mostSuitableGo, hdrop, hbrk, hbet]
      · cases cd with
        | none =>
          rcases ih (some mv) (some (p - prob)) with h | ⟨m', p', hmem, hle', h⟩
          · right
            exact ⟨mv, p, List.mem_cons_self _ _, hle,
              by simpa [mostSuitableGo, hdrop, hbrk] using h⟩
          · right
            exact ⟨m', p', List.mem_cons_of_mem _ hmem, hle',
              by simpa [mostSuitableGo, hdrop, hbrk] using h⟩
        | some d =>
          by_cases hbet : |p - prob| < |d|
          · rcases ih (some mv) (some (p - prob)) with h | ⟨m', p', hmem, hle', h⟩
            · right
              exact ⟨mv, p, List.mem_cons_self _ _, hle,
                by simpa [mostSuitableGo, hdrop, hbrk, hbet] using h⟩
            · right
              exact ⟨m', p', List.mem_cons_of_mem _ hmem, hle',
                by simpa [mostSuitableGo, hdrop, hbrk, hbet] using h⟩
          · rcases ih ch (some d) with h | ⟨m', p', hmem, hle', h⟩
            · left; simpa [mostSuitableGo, hdrop, hbrk, hbet] using h
            · right
              exact ⟨m', p', List.mem_cons_of_mem _ hmem, hle',
                by simpa [mostSuitableGo, hdrop, hbrk, hbet] using h⟩

/-- The selector either chooses nothing at all or chooses a surviving
candidate, reporting its signed deviation. -/
theorem mostSuitable_result (vars : List (String × ℚ)) (prob md : ℚ) (pt : Bool) :
    mostSuitable vars prob md pt = (none, none) ∨
    ∃ m p, (m, p) ∈ survivors md vars ∧
      mostSuitable vars prob md pt = (some m, some (p - prob)) := by
  cases vars with
  | nil => left; rfl
  | cons c rest =>
    obtain ⟨m₀, p₀⟩ := c
    by_cases hdrop : p₀ - p₀ > md
    · have hd : md < 0 := by simpa using hdrop
      have hmem : ∀ m p, (m, p) ∈ rest → p₀ - p ≤ md →
          (m, p) ∈ survivors md ((m₀, p₀) :: rest) := by
        intro m p hp hle
        simp only [survivors, List.mem_filter]
        exact ⟨List.mem_cons_of_mem _ hp, by simpa using hle⟩
      rcases go_result prob md pt p₀ rest none none with h | ⟨m', p', hm, hle, h⟩
      · left; simpa [mostSuitable, mostSuitableGo, hd] using h
      · right
        exact ⟨m', p', hmem _ _ hm hle,
          by simpa [mostSuitable, mostSuitableGo, hd] using h⟩
    · have hd : ¬ md < 0 := by simpa using hdrop
      have hle0 : p₀ - p₀ ≤ md := le_of_not_lt hdrop
      have hhead : (m₀, p₀) ∈ survivors md ((m₀, p₀) :: rest) := by
        simp only [survivors, List.mem_filter]
        exact ⟨List.mem_cons_self _ _, by simpa using hle0⟩
      have hmem : ∀ m p, (m, p) ∈ rest → p₀ - p ≤ md →
          (m, p) ∈ survivors md ((m₀, p₀) :: rest) := by
        intro m p hp hle
        simp only [survivors, List.mem_filter]
        exact ⟨List.mem_cons_of_mem _ hp, by simpa using hle⟩
      by_cases hbrk : m₀ = "pass" ∧ pt = true
      · right
        exact ⟨m₀, p₀, hhead, by simp [mostSuitable, mostSuitableGo, hd, hbrk]⟩
      · rcases go_result prob md pt p₀ rest (some m₀) (some (p₀ - prob)) with
          h | ⟨m', p', hm, hle, h⟩
        · right
          exact ⟨m₀, p₀, hhead,
            by simpa [mostSuitable, mostSuitableGo, hd, hbrk] using h⟩
        · right
          exact ⟨m', p', hmem _ _ hm hle,
            by simpa [mostSuitable, mostSuitableGo, hd, hbrk] using h⟩

/-- Once a choice is made, the loop never reverts to no-choice. -/
theorem go_some (prob md : ℚ) (pt : Bool) (t : ℚ) :
    ∀ (l : List (String × ℚ)) (m : String) (d : ℚ),
      ∃ m' d', mostSuitableGo prob md pt (some t) (some m) (some d) l =
        (some m', some d') := by
  intro l
  induction l with
  | nil => intro m d; exact ⟨m, d, rfl⟩
  | cons c rest ih =>
    intro m d
    obtain ⟨mv, p⟩ := c
    by_cases hdrop : t - p > md
    · obtain ⟨m', d', h⟩ := ih m d
      exact ⟨m', d', by simpa [mostSuitableGo, hdrop] using h⟩
    · by_cases hbet : |p - prob| < |d|
      · by_cases hbrk : mv = "pass" ∧ pt = true
        · exact ⟨mv, p - prob, by simp [mostSuitableGo, hdrop, hbet, hbrk]⟩
        · obtain ⟨m', d', h⟩ := ih mv (p - prob)
          exact ⟨m', d', by simpa [mostSuitableGo, hdrop, hbet, hbrk] using h⟩
      · by_cases hbrk : mv = "pass" ∧ pt = true
        · exact ⟨m, d, by simp [mostSuitableGo, hdrop, hbet, hbrk]⟩
        · obtain ⟨m', d', h⟩ := ih m d
          exact ⟨m', d', by simpa [mostSuitableGo, hdrop, hbet, hbrk] using h⟩

/-- With `pass_terminates` off and `top_percent` fixed, the loop is the
left fold of `chooseStep` over the candidates surviving the filter.  The
running state corresponds to `acc` componentwise. -/
theorem go_fold (prob md t : ℚ) :
    ∀ (l : List (String × ℚ)) (acc : Option (String × ℚ)),
      mostSuitableGo prob md false (some t) (acc.map Prod.fst)
          (acc.map fun b => b.2 - prob) l =
        (((l.filter fun c => decide (t - c.2 ≤ md)).foldl (chooseStep prob) acc).map
            Prod.fst,
          ((l.filter fun c => decide (t - c.2 ≤ md)).foldl (chooseStep prob) acc).map
            fun b => b.2 - prob) := by
  intro l
  induction l with
  | nil => intro acc; rfl
  | cons c rest ih =>
    intro acc
    obtain ⟨mv, p⟩ := c
    by_cases hdrop : t - p > md
    · have hf : ¬ t - p ≤ md := not_le.mpr hdrop
      have hf' : ¬ t ≤ md + p := fun h => hf (sub_le_iff_le_add.mpr h)
      simpa [mostSuitableGo, hdrop, List.filter_cons, hf, hf'] using ih acc
    · have hle : t - p ≤ md := le_of_not_lt hdrop
      have hle' : t ≤ md + p := sub_le_iff_le_add.mp hle
      cases acc with
      | none =>
        have := ih (some (mv, p))
        simpa [mostSuitableGo, hdrop, List.filter_cons, hle, hle', chooseStep]
          using this
      | some b =>
        by_cases hbet : |p - prob| < |b.2 - prob|
        · have := ih (some (mv, p))
          simpa [mostSuitableGo, hdrop, List.filter_cons, hle, hle', chooseStep, hbet]
            using this
        · have := ih (some b)
          simpa [mostSuitableGo, hdrop, List.filter_cons, hle, hle', chooseStep, hbet]
            using this

/-- With `pass_terminates` off, `_most_suitable` is the `chooseStep` fold
over the surviving candidates. -/
theorem mostSuitable_eq_fold (vars : List (String × ℚ)) (prob md : ℚ) :
    mostSuitable vars prob md false =
      (((survivors md vars).foldl (chooseStep prob) none).map Prod.fst,
        ((survivors md vars).foldl (chooseStep prob) none).map fun b => b.2 - prob) := by
  cases vars with
  | nil => rfl
  | cons c rest =>
    obtain ⟨m₀, p₀⟩ := c
    by_cases hdrop : p₀ - p₀ > md
    · have hd : md < 0 := by simpa using hdrop
      have hf : ¬ p₀ - p₀ ≤ md := not_le.mpr hdrop
      have hf' : ¬ (0 : ℚ) ≤ md := not_le.mpr hd
      have := go_fold prob md p₀ rest none
      simpa [mostSuitable, mostSuitableGo, hd, survivors, List.filter_cons, hf, hf']
        using this
    · have hd : ¬ md < 0 := by simpa using hdrop
      have hle : p₀ - p₀ ≤ md := le_of_not_lt hdrop
      have hle' : (0 : ℚ) ≤ md := not_lt.mp hd
      have := go_fold prob md p₀ rest (some (m₀, p₀))
      simpa [mostSuitable, mostSuitableGo, hd, survivors, List.filter_cons, hle,
        hle', chooseStep] using this

/-- The `chooseStep` fold from `none` returns the earliest candidate of
minimal deviation: some decomposition `pre ++ c :: post` where `c` beats
every listed candidate weakly and every earlier one strictly. -/
theorem foldl_chooseStep_spec (prob : ℚ) :
    ∀ l : List (String × ℚ), l ≠ [] →
      ∃ pre c post, l = pre ++ c :: post ∧
        l.foldl (chooseStep prob) none = some c ∧
        (∀ b ∈ l, |c.2 - prob| ≤ |b.2 - prob|) ∧
        (∀ b ∈ pre, |c.2 - prob| < |b.2 - prob|) := by
  intro l
  induction l using List.reverseRecOn with
  | nil => intro h; exact absurd rfl h
  | append_singleton l a ih =>
    intro _
    cases l with
    | nil =>
      refine ⟨[], a, [], by simp, by simp [chooseStep], ?_, by simp⟩
      intro b hb
      simp only [List.nil_append, List.mem_singleton] at hb
      simp [hb]
    | cons c0 l0 =>
      obtain ⟨pre, c, post, hdec, hfold, hmin, hstrict⟩ := ih (by simp)
      by_cases hbet : |a.2 - prob| < |c.2 - prob|
      · refine ⟨c0 :: l0, a, [], by simp, ?_, ?_, ?_⟩
        · rw [List.foldl_append, hfold]
          simp [chooseStep, hbet]
        · intro b hb
          rcases List.mem_append.mp hb with hb | hb
          · exact le_of_lt (lt_of_lt_of_le hbet (hmin b hb))
          · simp only [List.mem_singleton] at hb
            simp [hb]
        · intro b hb
          exact lt_of_lt_of_le hbet (hmin b hb)
      · refine ⟨pre, c, post ++ [a], by simp [hdec], ?_, ?_, hstrict⟩
        · rw [List.foldl_append, hfold]
          simp [chooseStep, hbet]
        · intro b hb
          rcases List.mem_append.mp hb with hb | hb
          · exact hmin b hb
          · simp only [List.mem_singleton] at hb
            subst hb
            exact not_lt.mp hbet

/-- With `pass_terminates` set and `top_percent` fixed at `t`, a `"pass"`
candidate that survives the filter ends the scan: the candidates after it
never influence the loop. -/
theorem go_passTrunc (prob md : ℚ) (t p : ℚ) (post : List (String × ℚ))
    (hp : t - p ≤ md) :
    ∀ (pre : List (String × ℚ)) (ch : Option String) (cd : Option ℚ),
      mostSuitableGo prob md true (some t) ch cd (pre ++ ("pass", p) :: post) =
        mostSuitableGo prob md true (some t) ch cd (pre ++ [("pass", p)]) := by
  intro pre
  induction pre with
  | nil =>
    intro ch cd
    have hdrop : ¬ t - p > md := not_lt.mpr hp
    cases cd with
    | none => simp [mostSuitableGo, hdrop]
    | some d =>
      by_cases hbet : |p - prob| < |d|
      · simp [mostSuitableGo, hdrop, hbet]
      · simp [mostSuitableGo, hdrop, hbet]
  | cons e pre' ih =>
    intro ch cd
    obtain ⟨mv, q⟩ := e
    by_cases hdrop : t - q > md
    · simpa [mostSuitableGo, hdrop] using ih ch cd
    · by_cases hpass : mv = "pass"
      · simp [mostSuitableGo, hdrop, hpass]
      · cases cd with
        | none =>
          simpa [mostSuitableGo, hdrop, hpass] using ih (some mv) (some (q - prob))
        | some d =>
          by_cases hbet : |q - prob| < |d|
          · simpa [mostSuitableGo, hdrop, hpass, hbet]
              using ih (some mv) (some (q - prob))
          · simpa [mostSuitableGo, hdrop, hpass, hbet] using ih ch (some d)

/-! ## Helper lemmas about the diagnostic parser -/

/-- A sentinel line can never match the `_VARIATION` pattern: after the
(empty) leading space run, the first group takes at most `NN` and the
literal ` ->` then fails inside the fixed prefix.  The computation never
looks past the eighth character. -/
theorem matchVariationCs_sentinel (rest : List Char) :
    matchVariationCs (sentinelChars ++ rest) = none := rfl

/-- A line whose first eight characters are `NN eval=` does not match the
candidate pattern. -/
theorem matchVariation_sentinel (line : String)
    (h : line.data.take 8 = sentinelChars) : matchVariation line = none := by
  have hdec : line.data = sentinelChars ++ line.data.drop 8 := by
    conv_lhs => rw [← List.take_append_drop 8 line.data]
    rw [h]
  unfold matchVariation
  rw [hdec, matchVariationCs_sentinel]
  rfl

/-- `_read_variations` never returns an empty candidate list: the `assert`
fires first. -/
theorem readGo_ok_ne_nil :
    ∀ (lines : List String) (minV : Int) (acc vars : List (String × String))
      (rest : List String),
      readVariationsGo minV acc lines = ReadOutcome.ok vars rest → vars ≠ [] := by
  intro lines
  induction lines with
  | nil => intro minV acc vars rest h; exact absurd h (by simp [readVariationsGo])
  | cons line tail ih =>
    intro minV acc vars rest h
    by_cases hs : line.data.take 8 = sentinelChars
    · by_cases hacc : acc = []
      · simp [readVariationsGo, hs, hacc] at h
      · simp only [readVariationsGo, if_pos hs, if_neg hacc] at h
        injection h with h1 h2
        intro hv
        exact hacc (by simpa using h1.trans hv)
    · rcases hm : matchVariation line with _ | ⟨⟨m, vs, w⟩⟩
      · exact ih minV acc vars rest (by simpa [readVariationsGo, hs, hm] using h)
      · rcases hv : pyInt vs with _ | v
        · simp [readVariationsGo, hs, hm, hv] at h
        · by_cases hok : v ≥ minV ∨ m = "pass"
          · exact ih minV ((m, w) :: acc) vars rest
              (by simpa [readVariationsGo, hs, hm, hv, hok] using h)
          · exact ih minV acc vars rest
              (by simpa [readVariationsGo, hs, hm, hv, hok] using h)

/-! ## Claims -/

/-- C1 (counterexample): as stated — quantifying over all policy settings,
`passTerminates` included — the claim fails.  With `passTerminates` true on
`[("A",70), ("pass",49), ("B",50)]`, target `50`, `maxDrop` `100`, the
selector returns `"pass"` although `("B", 50)` survives the filter with a
strictly smaller deviation (`0 < 1`): the scan stopped at the accepted
pass before reaching the minimizer. -/
theorem c1_counterexample :
    (mostSuitable [("A", 70), ("pass", 49), ("B", 50)] 50 100 true).1 = some "pass" ∧
    ("B", (50 : ℚ)) ∈ survivors 100 [("A", 70), ("pass", 49), ("B", 50)] ∧
    |(50 : ℚ) - 50| < |(49 : ℚ) - 50| := by
  refine ⟨?_, ?_, by norm_num⟩
  · norm_num [mostSuitable, mostSuitableGo]
    decide
  · norm_num [survivors]

/-- C1 (amended): when `passTerminates` is false, for every candidate list
with at least one candidate surviving the max-drop filter, `_most_suitable`
returns the earliest-listed candidate minimizing `|winPercent − target|`
among the non-filtered candidates — strict improvement is required, so
equal deviations keep the earlier-listed candidate. -/
theorem c1_selector_minimizes (vars : List (String × ℚ)) (prob md : ℚ)
    (h : survivors md vars ≠ []) :
    ∃ pre c post, survivors md vars = pre ++ c :: post ∧
      mostSuitable vars prob md false = (some c.1, some (c.2 - prob)) ∧
      (∀ b ∈ survivors md vars, |c.2 - prob| ≤ |b.2 - prob|) ∧
      (∀ b ∈ pre, |c.2 - prob| < |b.2 - prob|) := by
  obtain ⟨pre, c, post, hdec, hfold, hmin, hstrict⟩ :=
    foldl_chooseStep_spec prob (survivors md vars) h
  refine ⟨pre, c, post, hdec, ?_, hmin, hstrict⟩
  rw [mostSuitable_eq_fold, hfold]
  rfl

/-- C1 (witness): the amended theorem applied to `[("A",70), ("B",50)]`
with target `50` and `maxDrop` `100`. -/
theorem c1_witness :
    ∃ pre c post,
      survivors 100 [(("A" : String), (70 : ℚ)), ("B", 50)] = pre ++ c :: post ∧
      mostSuitable [("A", 70), ("B", 50)] 50 100 false =
        (some c.1, some (c.2 - 50)) ∧
      (∀ b ∈ survivors 100 [(("A" : String), (70 : ℚ)), ("B", 50)],
        |c.2 - 50| ≤ |b.2 - 50|) ∧
      (∀ b ∈ pre, |c.2 - 50| < |b.2 - 50|) :=
  c1_selector_minimizes [("A", 70), ("B", 50)] 50 100
    (by norm_num [survivors]; exact List.cons_ne_nil _ _)

/-- C2: whenever the selector returns a chosen move, that move belongs to a
candidate surviving the max-drop filter (its reported deviation is that
candidate's): a candidate dropping more than `maxDropPercent` below the
first candidate's win percent is never chosen. -/
theorem c2_filtered_never_chosen (vars : List (String × ℚ)) (prob md : ℚ)
    (pt : Bool) (m : String) (d : ℚ)
    (h : mostSuitable vars prob md pt = (some m, some d)) :
    ∃ p, (m, p) ∈ survivors md vars ∧ d = p - prob := by
  rcases mostSuitable_result vars prob md pt with h0 | ⟨m', p', hmem, hr⟩
  · rw [h] at h0
    simp at h0
  · have := h.symm.trans hr
    simp only [Prod.mk.injEq, Option.some.injEq] at this
    obtain ⟨rfl, rfl⟩ := this
    exact ⟨p', hmem, rfl⟩

/-- C2 (witness): applied to the single-candidate list `[("a", 60)]`. -/
theorem c2_witness :
    ∃ p, (("a" : String), p) ∈ survivors 100 [(("a" : String), (60 : ℚ))] ∧
      (10 : ℚ) = p - 50 :=
  c2_filtered_never_chosen [("a", 60)] 50 100 false "a" 10
    (by norm_num [mostSuitable, mostSuitableGo])

/-- C3: with `passTerminates` true, if a `"pass"` candidate survives the
max-drop filter then the selector's result is the same as on the list
truncated just after that pass — the scan stops there, so no candidate
listed after the pass is ever chosen. -/
theorem c3_pass_terminates (prob md : ℚ) (pre post : List (String × ℚ)) (p : ℚ)
    (h : headPercent (pre ++ ("pass", p) :: post) - p ≤ md) :
    mostSuitable (pre ++ ("pass", p) :: post) prob md true =
      mostSuitable (pre ++ [("pass", p)]) prob md true := by
  cases pre with
  | nil =>
    have h0 : (0 : ℚ) ≤ md := by simpa [headPercent] using h
    have hd : ¬ md < 0 := not_lt.mpr h0
    simp [mostSuitable, mostSuitableGo, hd]
  | cons e pre' =>
    obtain ⟨mv, q⟩ := e
    have h' : q - p ≤ md := by simpa [headPercent] using h
    by_cases hdrop : q - q > md
    · have hd : md < 0 := by simpa using hdrop
      simpa [mostSuitable, mostSuitableGo, hd]
        using go_passTrunc prob md q p post h' pre' none none
    · have hd : ¬ md < 0 := by simpa using hdrop
      by_cases hpass : mv = "pass"
      · simp [mostSuitable, mostSuitableGo, hd, hpass]
      · simpa [mostSuitable, mostSuitableGo, hd, hpass]
          using go_passTrunc prob md q p post h' pre' (some mv) (some (q - prob))

/-- C3 (witness): on `[("A",60), ("pass",49), ("B",50)]` the result equals
the result on `[("A",60), ("pass",49)]`. -/
theorem c3_witness :
    mostSuitable [("A", 60), ("pass", 49), ("B", 50)] 50 100 true =
      mostSuitable [("A", 60), ("pass", 49)] 50 100 true := by
  have := c3_pass_terminates 50 100 [("A", 60)] [("B", 50)] 49
    (by norm_num [headPercent])
  simpa using this

/-- C4 (counterexample): the selector's second output is the *signed*
deviation, not its magnitude: on `[("a", 40)]` with target `50` it returns
`(some "a", some (-10))`, and `-10` is not `|40 - 50|`. -/
theorem c4_counterexample :
    mostSuitable [("a", 40)] 50 100 false = (some "a", some (-10)) ∧
    ((-10 : ℚ) ≠ |(40 : ℚ) - 50|) := by
  constructor
  · norm_num [mostSuitable, mostSuitableGo]
  · norm_num

/-- C4 (amended): the selector returns the chosen move token together with
its signed deviation `winPercent − target` (the magnitude is used only for
comparison), the chosen candidate surviving the max-drop filter; when no
candidate was ever chosen it returns `(None, None)`, and `genmove`'s
subsequent log formatting of the `None` deviation (`"{:.2f}"`, line 265)
raises a `TypeError` — a runtime failure, though not a precondition
violation inside the selector. -/
theorem c4_selector_output (vars : List (String × ℚ)) (prob md : ℚ) (pt : Bool) :
    (∃ m p, (m, p) ∈ survivors md vars ∧
      mostSuitable vars prob md pt = (some m, some (p - prob))) ∨
    (mostSuitable vars prob md pt = (none, none) ∧
      formatMoveLog (mostSuitable vars prob md pt).2 = Except.error ()) := by
  rcases mostSuitable_result vars prob md pt with h | ⟨m, p, hmem, h⟩
  · right
    exact ⟨h, by rw [h]; rfl⟩
  · left
    exact ⟨m, p, hmem, h⟩

/-- C5: for every diagnostic line matching the candidate pattern with a
well-formed visit field, the parser step accepts the record into the
candidate list exactly when `visits ≥ minVisits` or the move token is
`"pass"` — a pass candidate is never dropped by the visit filter,
whatever its visit count. -/
theorem c5_visit_filter (minV : Int) (acc : List (String × String))
    (line : String) (rest : List String) (m vs w : String) (v : Int)
    (hm : matchVariation line = some (m, vs, w)) (hv : pyInt vs = some v) :
    readVariationsGo minV acc (line :: rest) =
      readVariationsGo minV
        (if v ≥ minV ∨ m = "pass" then (m, w) :: acc else acc) rest := by
  have hs : ¬ line.data.take 8 = sentinelChars := by
    intro h
    rw [matchVariation_sentinel line h] at hm
    exact Option.noConfusion hm
  by_cases hok : v ≥ minV ∨ m = "pass"
  · simp [readVariationsGo, hs, hm, hv, hok]
  · simp [readVariationsGo, hs, hm, hv, hok]

/-- C5 (witness): the line `D4 -> 10 (V: 50%)` with `minVisits = 0` is
accepted. -/
theorem c5_witness :
    readVariationsGo 0 [] ["D4 -> 10 (V: 50%)"] =
      readVariationsGo 0 [("D4", "50")] [] := by
  have := c5_visit_filter 0 [] "D4 -> 10 (V: 50%)" [] "D4" "10" "50" 10
    (by rfl) (by rfl)
  simpa using this

/-- C6: `_read_variations` never returns an empty candidate list — if the
closing sentinel is reached with zero accepted candidates, the run ends in
the hard assertion failure, aborting the move-generation cycle. -/
theorem c6_empty_asserts :
    (∀ (minV : Int) (lines : List String) (vars : List (String × String))
      (rest : List String),
      readVariations minV lines = ReadOutcome.ok vars rest → vars ≠ []) ∧
    (∀ (minV : Int) (line : String) (rest : List String),
      line.data.take 8 = sentinelChars →
      readVariationsGo minV [] (line :: rest) = ReadOutcome.assertFail) := by
  constructor
  · intro minV lines vars rest h
    exact readGo_ok_ne_nil lines minV [] vars rest h
  · intro minV line rest h
    simp [readVariationsGo, h]

/-- C6 (witness): a successful run yields a nonempty list, and a sentinel
reached with nothing accepted asserts. -/
theorem c6_witness :
    ([("D4", "50")] : List (String × String)) ≠ [] ∧
    readVariationsGo 0 [] ["NN eval=0.42"] = ReadOutcome.assertFail :=
  ⟨c6_empty_asserts.1 0 ["D4 -> 10 (V: 50%)", "NN eval=0.42"] [("D4", "50")] []
      (by rfl),
    c6_empty_asserts.2 0 "NN eval=0.42" [] (by rfl)⟩

/-- C7: when the subordinate's reply token is `"resign"` or `"pass"`,
`genmove` emits the chatter followed by the corresponding protocol reply,
sends only the original `genmove` command (no `undo`, no `play`), and its
outcome is independent of the diagnostic stream — it is never read. -/
theorem c7_short_circuit (color : String) (prob : ℚ) (minV : Int) (md : ℚ)
    (pt : Bool) (lzOut lzErr lzErr' : List String) (chatter : List String)
    (move : String) (rest : List String)
    (hw : waitForMove lzOut = some (chatter, move, rest))
    (hmv : move = "resign" ∨ move = "pass") :
    genmove color prob minV md pt lzOut lzErr =
      GenOutcome.ok (chatter ++ ["= " ++ move ++ "\r\n"])
        ["genmove " ++ color ++ "\r\n"] ∧
    genmove color prob minV md pt lzOut lzErr =
      genmove color prob minV md pt lzOut lzErr' := by
  rcases hmv with rfl | rfl
  · constructor
    · simp [genmove, hw]
    · simp [genmove, hw]
  · constructor
    · simp [genmove, hw]
    · simp [genmove, hw]

/-- C7 (witness): a `= resign` reply short-circuits, identically for two
different diagnostic streams. -/
theorem c7_witness :
    genmove "b" 50 0 100 false ["= resign\r\n"] [] =
      GenOutcome.ok ["= resign\r\n"] ["genmove b\r\n"] ∧
    genmove "b" 50 0 100 false ["= resign\r\n"] [] =
      genmove "b" 50 0 100 false ["= resign\r\n"] ["NN eval=0.42"] := by
  have := c7_short_circuit "b" 50 0 100 false ["= resign\r\n"] [] ["NN eval=0.42"]
    [] "resign" [] (by rfl) (Or.inl rfl)
  simpa using this

/-- C8: the passthrough relay writes, in queue order, exactly the lines up
to and including the first line whose first character is `=` or `?`, and
then returns, leaving the rest of the queue untouched. -/
theorem c8_passthrough_relay (pre : List String) (mline : String)
    (post : List String)
    (hpre : ∀ l ∈ pre, ¬(l.data.take 1 = ['='] ∨ l.data.take 1 = ['?']))
    (hm : mline.data.take 1 = ['='] ∨ mline.data.take 1 = ['?']) :
    dumpStdoutUntilReady (pre ++ mline :: post) = some (pre ++ [mline], post) := by
  induction pre with
  | nil => simp [dumpStdoutUntilReady, hm]
  | cons l pre' ih =>
    have hl := hpre l (List.mem_cons_self _ _)
    have hrec := ih fun x hx => hpre x (List.mem_cons_of_mem _ hx)
    simp [dumpStdoutUntilReady, hl, hrec]

/-- C8 (witness): a chatter line followed by a `=` reply line and a later
line: the relay emits the first two and leaves the third. -/
theorem c8_witness :
    dumpStdoutUntilReady ["lz\n", "= ok\n", "later\n"] =
      some (["lz\n", "= ok\n"], ["later\n"]) := by
  have := c8_passthrough_relay ["lz\n"] "= ok\n" ["later\n"] (by decide)
    (by decide)
  simpa using this

/-- C9: for a nonempty candidate list and a non-negative `maxDropPercent`,
the first candidate always survives the filter and the selector always
returns a chosen move with its deviation — the no-candidate branch is
unreachable. -/
theorem c9_first_survives (c : String × ℚ) (rest : List (String × ℚ))
    (prob md : ℚ) (pt : Bool) (hmd : 0 ≤ md) :
    c ∈ survivors md (c :: rest) ∧
    ∃ m d, mostSuitable (c :: rest) prob md pt = (some m, some d) := by
  obtain ⟨m₀, p₀⟩ := c
  have hd : ¬ md < 0 := not_lt.mpr hmd
  constructor
  · simp only [survivors, List.mem_filter]
    refine ⟨List.mem_cons_self _ _, ?_⟩
    simpa using hmd
  · by_cases hpass : m₀ = "pass" ∧ pt = true
    · exact ⟨m₀, p₀ - prob, by simp [mostSuitable, mostSuitableGo, hd, hpass]⟩
    · obtain ⟨m', d', hgo⟩ := go_some prob md pt p₀ rest m₀ (p₀ - prob)
      exact ⟨m', d',
        by simpa [mostSuitable, mostSuitableGo, hd, hpass] using hgo⟩

/-- C9 (witness): applied to `[("a", 60)]` with `maxDrop = 0`. -/
theorem c9_witness :
    (("a" : String), (60 : ℚ)) ∈ survivors 0 [(("a" : String), (60 : ℚ))] ∧
    ∃ m d, mostSuitable [("a", 60)] 50 0 false = (some m, some d) :=
  c9_first_survives ("a", 60) [] 50 0 false le_rfl

/-- C10: a line that matches the candidate pattern but whose visit field is
not a decimal integer string makes the parser raise from the `int`
conversion (aborting, not skipping), while a line that fails the pattern
match entirely is skipped without any effect. -/
theorem c10_malformed_visits :
    (matchVariation "D4 -> abc (V: 50%)" = some ("D4", "abc", "50") ∧
      pyInt "abc" = none ∧
      readVariations 0 ["D4 -> abc (V: 50%)"] = ReadOutcome.valueError) ∧
    (∀ (minV : Int) (acc : List (String × String)) (line : String)
      (rest : List String),
      ¬ line.data.take 8 = sentinelChars → matchVariation line = none →
      readVariationsGo minV acc (line :: rest) = readVariationsGo minV acc rest) := by
  refine ⟨⟨by rfl, by rfl, by rfl⟩, ?_⟩
  intro minV acc line rest hs hm
  simp [readVariationsGo, hs, hm]

/-- C10 (witness): the non-matching line `junk` is skipped. -/
theorem c10_witness :
    readVariationsGo 0 [] ["junk", "NN eval=0.42"] =
      readVariationsGo 0 [] ["NN eval=0.42"] :=
  c10_malformed_visits.2 0 [] "junk" ["NN eval=0.42"] (by decide) (by rfl)

end Dumbstone
